import Mathlib

/-!
Verification of the queue-storage layer of the stomp broker
(`queue_storage.go`): the `MemoryQueueStorage` implementation of the
`QueueStorage` interface, shallowly embedded in Lean.

Modelling choices, faithful to the Go source:
  * a `message.Frame` is a headers list plus a body; the storage code
    treats frames as opaque values and never reads or writes their fields;
  * the Go map `lists map[string]*list.List` is an association list
    wrapped in `Option`: `none` models the nil map of an instance on which
    `Start()` has not run (or `Stop()` has run).  Reading a nil Go map
    yields the zero value with `ok = false`; *assigning* to a nil map
    panics with the message "assignment to entry in nil map".  A panic is
    modelled as `Except.error` carrying the Go panic message; normal
    returns are `Except.ok` carrying the updated state, the returned
    values, and the Go `error` result (`Option String`, `none` for nil);
  * `container/list` holding `*message.Frame` values is a `List Frame`;
    `PushBack` appends, `PushFront` prepends, `Front`/`Remove` take the
    head.
-/

/-- A STOMP message frame: named headers and a body.  The storage layer
never inspects these fields; they are carried so that preservation of a
frame's contents across the storage round trip is expressible. -/
structure Frame where
  headers : List (String × String)
  body : String
deriving DecidableEq, Repr

/-- The value of the frame's message-id header, if set. -/
def Frame.messageId (f : Frame) : Option String :=
  (f.headers.find? (fun p => p.fst == "message-id")).map Prod.snd

/-- Lookup in the destination-name-to-queue map (Go `m.lists[queue]`):
`some l` models `l, ok := ...` with `ok = true`. -/
def assocLookup (k : String) : List (String × List Frame) → Option (List Frame)
  | [] => none
  | (k2, v) :: rest => if k2 = k then some v else assocLookup k rest

/-- Store a value under a key in the map (Go `m.lists[queue] = l`),
replacing any existing entry for that key. -/
def assocSet (k : String) (v : List Frame) :
    List (String × List Frame) → List (String × List Frame)
  | [] => [(k, v)]
  | (k2, v2) :: rest =>
    if k2 = k then (k, v) :: rest else (k2, v2) :: assocSet k v rest

/-- The state of a `MemoryQueueStorage` instance: its `lists` field.
`none` models the nil map (before `Start()` / after `Stop()`). -/
structure MemoryQueueStorage where
  lists : Option (List (String × List Frame))
deriving DecidableEq, Repr

/-- `NewMemoryQueueStorage()`: a fresh instance whose map is nil. -/
def NewMemoryQueueStorage : MemoryQueueStorage := ⟨none⟩

/-- `Enqueue`: look the queue up, lazily create it if absent, and
`PushBack` the frame.  On a nil map the lookup yields `ok = false`, and
the subsequent `m.lists[queue] = l` panics. -/
def MemoryQueueStorage.Enqueue (m : MemoryQueueStorage) (queue : String)
    (frame : Frame) : Except String (MemoryQueueStorage × Option String) :=
  match m.lists with
  | none => Except.error ("assignment to entry in nil map")
  | some lists =>
    match assocLookup queue lists with
    | none => Except.ok (⟨some (assocSet queue [frame] lists)⟩, none)
    | some l => Except.ok (⟨some (assocSet queue (l ++ [frame]) lists)⟩, none)

/-- `Requeue`: look the queue up, lazily create it if absent, and
`PushFront` the frame.  Panics on a nil map, like `Enqueue`. -/
def MemoryQueueStorage.Requeue (m : MemoryQueueStorage) (queue : String)
    (frame : Frame) : Except String (MemoryQueueStorage × Option String) :=
  match m.lists with
  | none => Except.error ("assignment to entry in nil map")
  | some lists =>
    match assocLookup queue lists with
    | none => Except.ok (⟨some (assocSet queue [frame] lists)⟩, none)
    | some l => Except.ok (⟨some (assocSet queue (frame :: l) lists)⟩, none)

/-- `Dequeue`: return `(nil, nil)` when the queue is absent or empty,
otherwise remove and return the front frame.  Reading a nil map does not
panic, so before `Start()` this silently returns `(nil, nil)`. -/
def MemoryQueueStorage.Dequeue (m : MemoryQueueStorage) (queue : String) :
    Except String (MemoryQueueStorage × Option Frame × Option String) :=
  match m.lists with
  | none => Except.ok (m, none, none)
  | some lists =>
    match assocLookup queue lists with
    | none => Except.ok (m, none, none)
    | some [] => Except.ok (m, none, none)
    | some (f :: rest) =>
      Except.ok (⟨some (assocSet queue rest lists)⟩, some f, none)

/-- `Start()`: `m.lists = make(map[string]*list.List)`. -/
def MemoryQueueStorage.Start (_ : MemoryQueueStorage) : MemoryQueueStorage :=
  ⟨some []⟩

/-- `Stop()`: `m.lists = nil`. -/
def MemoryQueueStorage.Stop (_ : MemoryQueueStorage) : MemoryQueueStorage :=
  ⟨none⟩

/-- The contents of destination `d`'s queue, front first ([] when the
destination has no entry or the map is nil). -/
def queueOf (m : MemoryQueueStorage) (d : String) : List Frame :=
  match m.lists with
  | none => []
  | some lists => (assocLookup d lists).getD []

/-- Whether the internal map has an entry for destination `d`. -/
def hasEntry (m : MemoryQueueStorage) (d : String) : Bool :=
  match m.lists with
  | none => false
  | some lists => (assocLookup d lists).isSome

/-- Drain up to `n` frames from destination `d` by repeated `Dequeue`. -/
def drain : Nat → MemoryQueueStorage → String → List Frame
  | 0, _, _ => []
  | Nat.succ n, m, d =>
    match m.Dequeue d with
    | Except.ok (m2, some f, _) => f :: drain n m2 d
    | _ => []

/-- A data operation of the `QueueStorage` interface. -/
inductive Op where
  | enqueue (d : String) (f : Frame)
  | requeue (d : String) (f : Frame)
  | dequeue (d : String)
deriving DecidableEq, Repr

/-- Apply one data operation, keeping only the resulting state. -/
def applyOp (m : MemoryQueueStorage) : Op → Except String MemoryQueueStorage
  | Op.enqueue d f => (m.Enqueue d f).map Prod.fst
  | Op.requeue d f => (m.Requeue d f).map Prod.fst
  | Op.dequeue d => (m.Dequeue d).map Prod.fst

/-- Run a sequence of data operations from a given state. -/
def runOps (m : MemoryQueueStorage) : List Op → Except String MemoryQueueStorage
  | [] => Except.ok m
  | op :: rest =>
    match applyOp m op with
    | Except.ok m2 => runOps m2 rest
    | Except.error e => Except.error e

/-- Whether an operation is an `Enqueue` or `Requeue` on destination `d`. -/
def touchesOp (d : String) : Op → Bool
  | Op.enqueue d2 _ => d2 = d
  | Op.requeue d2 _ => d2 = d
  | Op.dequeue _ => false

/-- Whether a trace contains an `Enqueue` or `Requeue` on destination `d`. -/
def touches (ops : List Op) (d : String) : Bool :=
  ops.any (touchesOp d)

/-- A storage instance on which `Start()` has just run. -/
def startedEmpty : MemoryQueueStorage := NewMemoryQueueStorage.Start

/-- A concrete frame carrying a message-id header. -/
def frameA : Frame := ⟨[("message-id", "id1")], "body A"⟩

/-- A second concrete frame carrying a message-id header. -/
def frameB : Frame := ⟨[("message-id", "id2")], "body B"⟩

/-- A concrete frame with no message-id header. -/
def frameNoId : Frame := ⟨[("destination", "orders")], "hello"⟩

/-- The state after enqueueing `frameA` to destination orders on a freshly
started instance. -/
def stA : MemoryQueueStorage := ⟨some [(("orders"), [frameA])]⟩

/-- The state after enqueueing `frameA` then `frameB` to destination orders
on a freshly started instance. -/
def stAB : MemoryQueueStorage := ⟨some [(("orders"), [frameA, frameB])]⟩

/-! ### Map lemmas -/

theorem assocLookup_set_self (k : String) (v : List Frame)
    (L : List (String × List Frame)) :
    assocLookup k (assocSet k v L) = some v := by
  induction L with
  | nil => simp [assocSet, assocLookup]
  | cons p rest ih =>
    obtain ⟨k2, v2⟩ := p
    by_cases h : k2 = k
    · simp [assocSet, assocLookup, h]
    · simp [assocSet, assocLookup, h, ih]

theorem assocLookup_set_ne (k k2 : String) (v : List Frame)
    (L : List (String × List Frame)) (hne : k2 ≠ k) :
    assocLookup k (assocSet k2 v L) = assocLookup k L := by
  induction L with
  | nil => simp [assocSet, assocLookup, hne]
  | cons p rest ih =>
    obtain ⟨k3, v3⟩ := p
    by_cases h : k3 = k2
    · subst h
      simp [assocSet, assocLookup, hne]
    · simp only [assocSet, if_neg h]
      by_cases h2 : k3 = k
      · simp [assocLookup, h2]
      · simp [assocLookup, h2, ih]

theorem queueOf_set_self (d : String) (v : List Frame)
    (L : List (String × List Frame)) :
    queueOf ⟨some (assocSet d v L)⟩ d = v := by
  simp [queueOf, assocLookup_set_self]

/-! ### Per-operation characterization on a started state -/

theorem Enqueue_eq (m : MemoryQueueStorage) (L : List (String × List Frame))
    (d : String) (f : Frame) (hL : m.lists = some L) :
    m.Enqueue d f =
      Except.ok (⟨some (assocSet d (queueOf m d ++ [f]) L)⟩, none) := by
  simp only [MemoryQueueStorage.Enqueue, queueOf, hL]
  cases h : assocLookup d L with
  | none => simp [h]
  | some l => simp [h]

theorem Requeue_eq (m : MemoryQueueStorage) (L : List (String × List Frame))
    (d : String) (f : Frame) (hL : m.lists = some L) :
    m.Requeue d f =
      Except.ok (⟨some (assocSet d (f :: queueOf m d) L)⟩, none) := by
  simp only [MemoryQueueStorage.Requeue, queueOf, hL]
  cases h : assocLookup d L with
  | none => simp [h]
  | some l => simp [h]

theorem Dequeue_eq_nil (m : MemoryQueueStorage) (L : List (String × List Frame))
    (d : String) (hL : m.lists = some L) (hq : queueOf m d = []) :
    m.Dequeue d = Except.ok (m, none, none) := by
  simp only [MemoryQueueStorage.Dequeue, hL]
  simp only [queueOf, hL] at hq
  cases h : assocLookup d L with
  | none => simp [h]
  | some l =>
    rw [h] at hq
    simp at hq
    subst hq
    simp [h]

theorem Dequeue_eq_cons (m : MemoryQueueStorage) (L : List (String × List Frame))
    (d : String) (f : Frame) (rest : List Frame) (hL : m.lists = some L)
    (hq : queueOf m d = f :: rest) :
    m.Dequeue d = Except.ok (⟨some (assocSet d rest L)⟩, some f, none) := by
  simp only [MemoryQueueStorage.Dequeue, hL]
  simp only [queueOf, hL] at hq
  cases h : assocLookup d L with
  | none => rw [h] at hq; simp at hq
  | some l =>
    rw [h] at hq
    simp at hq
    subst hq
    simp [h]

theorem drain_queueOf (q : List Frame) :
    ∀ (m : MemoryQueueStorage) (L : List (String × List Frame)) (d : String),
      m.lists = some L → queueOf m d = q → drain q.length m d = q := by
  induction q with
  | nil =>
    intro m L d hL hq
    simp [drain]
  | cons f rest ih =>
    intro m L d hL hq
    have hdq := Dequeue_eq_cons m L d f rest hL hq
    simp only [List.length_cons, drain, hdq]
    have hres := ih ⟨some (assocSet d rest L)⟩ (assocSet d rest L) d rfl
      (queueOf_set_self d rest L)
    rw [hres]

/-! ### Claim C1 -/

/-- Claim C1 is refuted by the code: on an instance whose `Start()` has not
run (`NewMemoryQueueStorage`, or any instance after `Stop()`), `Enqueue`
and `Requeue` do not return a `NotStarted` error but panic on the nil-map
assignment, and `Dequeue` silently succeeds, returning `(nil, nil)` with no
error at all. -/
theorem lifecycle_guard_violated :
    NewMemoryQueueStorage.Enqueue ("orders") frameA
        = Except.error ("assignment to entry in nil map") ∧
    NewMemoryQueueStorage.Requeue ("orders") frameA
        = Except.error ("assignment to entry in nil map") ∧
    NewMemoryQueueStorage.Dequeue ("orders")
        = Except.ok (NewMemoryQueueStorage, none, none) ∧
    startedEmpty.Stop.Enqueue ("orders") frameA
        = Except.error ("assignment to entry in nil map") ∧
    startedEmpty.Stop.Dequeue ("orders")
        = Except.ok (startedEmpty.Stop, none, none) :=
  ⟨rfl, rfl, rfl, rfl, rfl⟩

/-! ### Claim C2 -/

/-- Claim C2 is refuted by the code: `Enqueue` never assigns a message-id.
A frame with no message-id header, enqueued on a started instance and then
dequeued, comes back verbatim and still has no message-id, contradicting
the `QueueStorage` interface documentation in the source. -/
theorem enqueue_never_assigns_messageId :
    frameNoId.messageId = none ∧
    startedEmpty.Enqueue ("orders") frameNoId
        = Except.ok (⟨some [(("orders"), [frameNoId])]⟩, none) ∧
    (⟨some [(("orders"), [frameNoId])]⟩ : MemoryQueueStorage).Dequeue ("orders")
        = Except.ok (⟨some [(("orders"), [])]⟩, some frameNoId, none) :=
  ⟨rfl, rfl, rfl⟩

/-! ### Claim C3 -/

/-- Claim C3: FIFO order.  On a started instance, enqueueing `A` then `B`
to destination `d` appends them, in that order, behind the existing
contents; draining the destination by repeated `Dequeue` then yields the
prior contents followed by `A` and then `B`, so `A` is dequeued strictly
before `B`. -/
theorem enqueue_fifo (st st1 st2 : MemoryQueueStorage)
    (L : List (String × List Frame)) (d : String) (A B : Frame)
    (hL : st.lists = some L)
    (h1 : st.Enqueue d A = Except.ok (st1, none))
    (h2 : st1.Enqueue d B = Except.ok (st2, none)) :
    queueOf st2 d = queueOf st d ++ [A, B] ∧
    drain (queueOf st d ++ [A, B]).length st2 d = queueOf st d ++ [A, B] := by
  have e1 := Enqueue_eq st L d A hL
  rw [h1] at e1
  simp only [Except.ok.injEq, Prod.mk.injEq, and_true] at e1
  subst e1
  have e2 := Enqueue_eq ⟨some (assocSet d (queueOf st d ++ [A]) L)⟩
    (assocSet d (queueOf st d ++ [A]) L) d B rfl
  rw [queueOf_set_self] at e2
  rw [h2] at e2
  simp only [Except.ok.injEq, Prod.mk.injEq, and_true] at e2
  subst e2
  have hq2 : queueOf
      (⟨some (assocSet d ((queueOf st d ++ [A]) ++ [B])
        (assocSet d (queueOf st d ++ [A]) L))⟩ : MemoryQueueStorage) d
      = queueOf st d ++ [A, B] := by
    rw [queueOf_set_self]
    simp
  exact ⟨hq2, drain_queueOf (queueOf st d ++ [A, B]) _ _ d rfl hq2⟩

/-- Witness for C3 at concrete inputs: `frameA` then `frameB` enqueued to
destination orders on a freshly started instance are drained in order. -/
theorem enqueue_fifo_witness :
    (startedEmpty.lists = some [] ∧
     startedEmpty.Enqueue ("orders") frameA = Except.ok (stA, none) ∧
     stA.Enqueue ("orders") frameB = Except.ok (stAB, none)) ∧
    (queueOf stAB ("orders") = queueOf startedEmpty ("orders") ++ [frameA, frameB] ∧
     drain (queueOf startedEmpty ("orders") ++ [frameA, frameB]).length stAB ("orders")
        = queueOf startedEmpty ("orders") ++ [frameA, frameB]) :=
  ⟨⟨rfl, rfl, rfl⟩,
   enqueue_fifo startedEmpty stA stAB [] ("orders") frameA frameB rfl rfl rfl⟩

/-! ### Claim C4 -/

/-- Claim C4: requeue priority.  On a started instance whose destination
`d` is empty, after `Enqueue d A`, `Enqueue d B`, a `Dequeue d` that
returns `A`, and `Requeue d A`, the next `Dequeue d` returns `A` again,
and only the `Dequeue` after that returns `B`: `Requeue` inserts at the
head of the queue. -/
theorem requeue_redelivers_first (st : MemoryQueueStorage)
    (L : List (String × List Frame)) (d : String) (A B : Frame)
    (hL : st.lists = some L) (hq : queueOf st d = []) :
    ∃ st1 st2 st3 st4 st5 st6 : MemoryQueueStorage,
      st.Enqueue d A = Except.ok (st1, none) ∧
      st1.Enqueue d B = Except.ok (st2, none) ∧
      st2.Dequeue d = Except.ok (st3, some A, none) ∧
      st3.Requeue d A = Except.ok (st4, none) ∧
      st4.Dequeue d = Except.ok (st5, some A, none) ∧
      st5.Dequeue d = Except.ok (st6, some B, none) := by
  have h1 := Enqueue_eq st L d A hL
  rw [hq] at h1
  simp only [List.nil_append] at h1
  generalize hL1 : assocSet d [A] L = L1 at h1
  have hq1 : queueOf ⟨some L1⟩ d = [A] := by rw [← hL1, queueOf_set_self]
  have h2 := Enqueue_eq ⟨some L1⟩ L1 d B rfl
  rw [hq1] at h2
  simp only [List.cons_append, List.nil_append] at h2
  generalize hL2 : assocSet d [A, B] L1 = L2 at h2
  have hq2 : queueOf ⟨some L2⟩ d = [A, B] := by rw [← hL2, queueOf_set_self]
  have h3 := Dequeue_eq_cons ⟨some L2⟩ L2 d A [B] rfl hq2
  generalize hL3 : assocSet d [B] L2 = L3 at h3
  have hq3 : queueOf ⟨some L3⟩ d = [B] := by rw [← hL3, queueOf_set_self]
  have h4 := Requeue_eq ⟨some L3⟩ L3 d A rfl
  rw [hq3] at h4
  generalize hL4 : assocSet d (A :: [B]) L3 = L4 at h4
  have hq4 : queueOf ⟨some L4⟩ d = [A, B] := by rw [← hL4, queueOf_set_self]
  have h5 := Dequeue_eq_cons ⟨some L4⟩ L4 d A [B] rfl hq4
  generalize hL5 : assocSet d [B] L4 = L5 at h5
  have hq5 : queueOf ⟨some L5⟩ d = [B] := by rw [← hL5, queueOf_set_self]
  have h6 := Dequeue_eq_cons ⟨some L5⟩ L5 d B [] rfl hq5
  exact ⟨_, _, _, _, _, _, h1, h2, h3, h4, h5, h6⟩

/-- Witness for C4 at concrete inputs: `frameA` and `frameB` on destination
orders of a freshly started instance. -/
theorem requeue_redelivers_first_witness :
    (startedEmpty.lists = some [] ∧ queueOf startedEmpty ("orders") = []) ∧
    (∃ st1 st2 st3 st4 st5 st6 : MemoryQueueStorage,
      startedEmpty.Enqueue ("orders") frameA = Except.ok (st1, none) ∧
      st1.Enqueue ("orders") frameB = Except.ok (st2, none) ∧
      st2.Dequeue ("orders") = Except.ok (st3, some frameA, none) ∧
      st3.Requeue ("orders") frameA = Except.ok (st4, none) ∧
      st4.Dequeue ("orders") = Except.ok (st5, some frameA, none) ∧
      st5.Dequeue ("orders") = Except.ok (st6, some frameB, none)) :=
  ⟨⟨rfl, rfl⟩,
   requeue_redelivers_first startedEmpty [] ("orders") frameA frameB rfl rfl⟩

/-! ### Claim C5 -/

/-- Claim C5: identity preservation.  On a started instance, requeueing a
frame that already carries a message-id and then dequeueing returns the
very same frame, whose message-id is unchanged: `Requeue` never allocates
a new identifier. -/
theorem requeue_preserves_messageId (st : MemoryQueueStorage)
    (L : List (String × List Frame)) (d : String) (f : Frame) (i : String)
    (hL : st.lists = some L) (hid : f.messageId = some i) :
    ∃ st1 st2 : MemoryQueueStorage,
      st.Requeue d f = Except.ok (st1, none) ∧
      st1.Dequeue d = Except.ok (st2, some f, none) ∧
      f.messageId = some i := by
  have h1 := Requeue_eq st L d f hL
  have h2 := Dequeue_eq_cons ⟨some (assocSet d (f :: queueOf st d) L)⟩
    (assocSet d (f :: queueOf st d) L) d f (queueOf st d) rfl
    (queueOf_set_self d (f :: queueOf st d) L)
  exact ⟨_, _, h1, h2, hid⟩

/-- Witness for C5 at concrete inputs: `frameA`, whose message-id is id1,
requeued to destination orders of a freshly started instance. -/
theorem requeue_preserves_messageId_witness :
    (startedEmpty.lists = some [] ∧ frameA.messageId = some ("id1")) ∧
    (∃ st1 st2 : MemoryQueueStorage,
      startedEmpty.Requeue ("orders") frameA = Except.ok (st1, none) ∧
      st1.Dequeue ("orders") = Except.ok (st2, some frameA, none) ∧
      frameA.messageId = some ("id1")) :=
  ⟨⟨rfl, rfl⟩,
   requeue_preserves_messageId startedEmpty [] ("orders") frameA ("id1") rfl rfl⟩

/-! ### Claim C6 -/

/-- Claim C6: empty-queue behavior.  On a started instance, `Dequeue` on a
destination whose queue is empty or was never created returns the empty
result (`nil` frame) with a `nil` error and leaves the state unchanged:
emptiness is never reported as a failure. -/
theorem dequeue_empty_not_error (st : MemoryQueueStorage)
    (L : List (String × List Frame)) (d : String)
    (hL : st.lists = some L) (hq : queueOf st d = []) :
    st.Dequeue d = Except.ok (st, none, none) :=
  Dequeue_eq_nil st L d hL hq

/-- Witness for C6 at concrete inputs: destination orders on a freshly
started instance, which has no queue entry at all. -/
theorem dequeue_empty_not_error_witness :
    (startedEmpty.lists = some [] ∧ queueOf startedEmpty ("orders") = []) ∧
    startedEmpty.Dequeue ("orders") = Except.ok (startedEmpty, none, none) :=
  ⟨⟨rfl, rfl⟩, dequeue_empty_not_error startedEmpty [] ("orders") rfl rfl⟩

/-! ### Trace lemmas for the lazy-creation invariant -/

theorem queueOf_cons_lookup (m : MemoryQueueStorage)
    (L : List (String × List Frame)) (d : String) (f : Frame)
    (rest : List Frame) (hL : m.lists = some L)
    (hq : queueOf m d = f :: rest) :
    assocLookup d L = some (f :: rest) := by
  simp only [queueOf, hL] at hq
  cases hlk : assocLookup d L with
  | none => rw [hlk] at hq; simp at hq
  | some l =>
    rw [hlk] at hq
    simp at hq
    exact congrArg some hq

theorem hasEntry_set (d d2 : String) (v : List Frame)
    (L : List (String × List Frame)) :
    hasEntry ⟨some (assocSet d2 v L)⟩ d
      = (decide (d2 = d) || hasEntry ⟨some L⟩ d) := by
  by_cases h : d2 = d
  · subst h
    simp [hasEntry, assocLookup_set_self]
  · simp [hasEntry, h, assocLookup_set_ne d d2 v L h]

theorem applyOp_hasEntry (op : Op) (m : MemoryQueueStorage)
    (L : List (String × List Frame)) (hL : m.lists = some L) :
    ∃ (m1 : MemoryQueueStorage) (L1 : List (String × List Frame)),
      applyOp m op = Except.ok m1 ∧ m1.lists = some L1 ∧
      ∀ d, hasEntry m1 d = (hasEntry m d || touchesOp d op) := by
  cases op with
  | enqueue d2 f =>
    refine ⟨⟨some (assocSet d2 (queueOf m d2 ++ [f]) L)⟩, _, ?_, rfl, ?_⟩
    · simp [applyOp, Except.map, Enqueue_eq m L d2 f hL]
    · intro d
      rw [hasEntry_set]
      simp [hasEntry, hL, touchesOp, Bool.or_comm]
  | requeue d2 f =>
    refine ⟨⟨some (assocSet d2 (f :: queueOf m d2) L)⟩, _, ?_, rfl, ?_⟩
    · simp [applyOp, Except.map, Requeue_eq m L d2 f hL]
    · intro d
      rw [hasEntry_set]
      simp [hasEntry, hL, touchesOp, Bool.or_comm]
  | dequeue d2 =>
    cases hqd : queueOf m d2 with
    | nil =>
      refine ⟨m, L, ?_, hL, ?_⟩
      · simp [applyOp, Except.map, Dequeue_eq_nil m L d2 hL hqd]
      · intro d
        simp [touchesOp]
    | cons f rest =>
      refine ⟨⟨some (assocSet d2 rest L)⟩, _, ?_, rfl, ?_⟩
      · simp [applyOp, Except.map, Dequeue_eq_cons m L d2 f rest hL hqd]
      · intro d
        rw [hasEntry_set]
        by_cases h : d2 = d
        · subst h
          have hlk := queueOf_cons_lookup m L d2 f rest hL hqd
          simp [hasEntry, hL, touchesOp, hlk]
        · simp [hasEntry, hL, touchesOp, h]

theorem runOps_hasEntry (ops : List Op) :
    ∀ (m : MemoryQueueStorage) (L : List (String × List Frame)),
      m.lists = some L →
      ∃ (m2 : MemoryQueueStorage) (L2 : List (String × List Frame)),
        runOps m ops = Except.ok m2 ∧ m2.lists = some L2 ∧
        ∀ d, hasEntry m2 d = (hasEntry m d || touches ops d) := by
  induction ops with
  | nil =>
    intro m L hL
    exact ⟨m, L, rfl, hL, fun d => by simp [touches]⟩
  | cons op rest ih =>
    intro m L hL
    obtain ⟨m1, L1, hap, hL1, hent1⟩ := applyOp_hasEntry op m L hL
    obtain ⟨m2, L2, hrun, hL2, hent2⟩ := ih m1 L1 hL1
    refine ⟨m2, L2, ?_, hL2, ?_⟩
    · simp [runOps, hap, hrun]
    · intro d
      rw [hent2 d, hent1 d]
      simp [touches, Bool.or_assoc]

/-! ### Claim C7 -/

/-- Claim C7: lazy creation.  Running any sequence of data operations from
a freshly started instance succeeds, and the internal map has an entry for
destination `d` if and only if the sequence contains an `Enqueue` or a
`Requeue` on `d`: `Dequeue` never creates an entry and no data operation
ever destroys one. -/
theorem queue_entry_iff_enqueued (ops : List Op) (d : String) :
    ∃ m2 : MemoryQueueStorage,
      runOps startedEmpty ops = Except.ok m2 ∧
      hasEntry m2 d = touches ops d := by
  obtain ⟨m2, L2, hrun, hL2, hent⟩ := runOps_hasEntry ops startedEmpty [] rfl
  refine ⟨m2, hrun, ?_⟩
  have h := hent d
  simpa [hasEntry, startedEmpty, NewMemoryQueueStorage, MemoryQueueStorage.Start,
    assocLookup] using h

/-! ### Claim C8 -/

/-- Claim C8: `Stop()` discards all in-memory contents.  Whatever state an
instance is in, after `Stop()` and a new `Start()` every destination is
empty: its queue contents are `[]` and `Dequeue` returns the empty result
with no error. -/
theorem stop_discards_all (m : MemoryQueueStorage) (d : String) :
    queueOf (m.Stop.Start) d = [] ∧
    m.Stop.Start.Dequeue d = Except.ok (m.Stop.Start, none, none) :=
  ⟨rfl, rfl⟩

/-! ### Claim C9 -/

/-- Claim C9: the storage never writes to a frame.  On a started instance,
`Enqueue` appends exactly the given frame (headers and body untouched),
`Requeue` prepends exactly the given frame, and `Dequeue` returns exactly
the frame at the head of the stored queue, leaving the tail. -/
theorem storage_never_writes_frames (st : MemoryQueueStorage)
    (L : List (String × List Frame)) (d : String) (f : Frame)
    (hL : st.lists = some L) :
    (∃ st1 : MemoryQueueStorage,
       st.Enqueue d f = Except.ok (st1, none) ∧
       queueOf st1 d = queueOf st d ++ [f]) ∧
    (∃ st2 : MemoryQueueStorage,
       st.Requeue d f = Except.ok (st2, none) ∧
       queueOf st2 d = f :: queueOf st d) ∧
    (∃ st3 : MemoryQueueStorage,
       st.Dequeue d = Except.ok (st3, (queueOf st d).head?, none) ∧
       queueOf st3 d = (queueOf st d).tail) := by
  refine ⟨⟨_, Enqueue_eq st L d f hL, queueOf_set_self d _ L⟩,
          ⟨_, Requeue_eq st L d f hL, queueOf_set_self d _ L⟩, ?_⟩
  cases hq : queueOf st d with
  | nil =>
    refine ⟨st, ?_, ?_⟩
    · exact Dequeue_eq_nil st L d hL hq
    · simp [hq]
  | cons g rest =>
    refine ⟨⟨some (assocSet d rest L)⟩, ?_, ?_⟩
    · exact Dequeue_eq_cons st L d g rest hL hq
    · simp [queueOf_set_self, hq]

/-- Witness for C9 at concrete inputs: `frameA` on destination orders of a
freshly started instance. -/
theorem storage_never_writes_frames_witness :
    startedEmpty.lists = some [] ∧
    ((∃ st1 : MemoryQueueStorage,
       startedEmpty.Enqueue ("orders") frameA = Except.ok (st1, none) ∧
       queueOf st1 ("orders") = queueOf startedEmpty ("orders") ++ [frameA]) ∧
     (∃ st2 : MemoryQueueStorage,
       startedEmpty.Requeue ("orders") frameA = Except.ok (st2, none) ∧
       queueOf st2 ("orders") = frameA :: queueOf startedEmpty ("orders")) ∧
     (∃ st3 : MemoryQueueStorage,
       startedEmpty.Dequeue ("orders")
         = Except.ok (st3, (queueOf startedEmpty ("orders")).head?, none) ∧
       queueOf st3 ("orders") = (queueOf startedEmpty ("orders")).tail)) :=
  ⟨rfl, storage_never_writes_frames startedEmpty [] ("orders") frameA rfl⟩

/-! ### Claim C10 -/

/-- Claim C10: no validation.  On a started instance, `Enqueue` and
`Requeue` return a nil error for every destination name (the empty string
included) and every frame: no input is ever rejected. -/
theorem enqueue_requeue_never_fail (st : MemoryQueueStorage)
    (L : List (String × List Frame)) (d : String) (f : Frame)
    (hL : st.lists = some L) :
    (∃ st1 : MemoryQueueStorage, st.Enqueue d f = Except.ok (st1, none)) ∧
    (∃ st2 : MemoryQueueStorage, st.Requeue d f = Except.ok (st2, none)) :=
  ⟨⟨_, Enqueue_eq st L d f hL⟩, ⟨_, Requeue_eq st L d f hL⟩⟩

/-- Witness for C10 at concrete inputs: the empty destination name and a
frame with no message-id on a freshly started instance. -/
theorem enqueue_requeue_never_fail_witness :
    startedEmpty.lists = some [] ∧
    ((∃ st1 : MemoryQueueStorage,
        startedEmpty.Enqueue ("") frameNoId = Except.ok (st1, none)) ∧
     (∃ st2 : MemoryQueueStorage,
        startedEmpty.Requeue ("") frameNoId = Except.ok (st2, none))) :=
  ⟨rfl, enqueue_requeue_never_fail startedEmpty [] ("") frameNoId rfl⟩
